import Mathlib

/-!
Formal model of the tensor layout descriptor of `src/tensor/tensor-pattern.h`
(struct `TensorPattern` and struct `TensorPatternProperties`).

The header stores, for a tensor of `num_axes` axes, the per-axis dims and
strides in fixed-size arrays of length `KALDI_TENSOR_MAX_DIM`, in reversed
order indexed by `raxis` (reversed axis): per the requirements block of the
header, the used slots are `0 <= i < num_axes` and every unused slot
`num_axes <= i < KALDI_TENSOR_MAX_DIM` holds `dims[i] == 1, strides[i] == 0`.

`KALDI_TENSOR_MAX_DIM` is declared in `tensor-common.h`, which is not part of
the sources at hand, so the whole development is parameterized by a constant
`m` standing for it.  The bodies of `TensorPattern::IsValid` and
`TensorPatternProperties::UpdateProperties`, the `Tensor` class, and the
pattern-code function `ComputePatternCode` are likewise declared but not
defined in the sources at hand; their models below are marked
`Modelled from the spec:` and follow the specification text.
-/

open List

namespace KaldiTensor

/-- Model of `struct TensorPattern`: `num_axes`, the `dims` and `strides`
arrays (length `KALDI_TENSOR_MAX_DIM`, modelled by the parameter `m`), and the
cached pattern `code`.  The C++ arrays of `int32` are modelled as lists of
unbounded integers. -/
structure TensorPattern (m : ℕ) where
  num_axes : ℤ
  dims : List ℤ
  strides : List ℤ
  code : ℤ
  dims_length : dims.length = m
  strides_length : strides.length = m

/-- The number of used slots: `num_axes` as a natural number (a negative
`num_axes` is rejected by validity and uses no slots). -/
def nUsed {m : ℕ} (p : TensorPattern m) : ℕ := p.num_axes.toNat

/-- The `(dim, stride)` contents of the used slots `0 <= i < num_axes`,
in raxis order. -/
def usedPairs {m : ℕ} (p : TensorPattern m) : List (ℤ × ℤ) :=
  (p.dims.take (nUsed p)).zip (p.strides.take (nUsed p))

/-- The `(dim, stride)` contents of the unused slots
`num_axes <= i < KALDI_TENSOR_MAX_DIM`. -/
def unusedPairs {m : ℕ} (p : TensorPattern m) : List (ℤ × ℤ) :=
  (p.dims.drop (nUsed p)).zip (p.strides.drop (nUsed p))

/-- The used axes with `dim != 1`, the axes the uniqueness check sorts. -/
def nontrivPairs {m : ℕ} (p : TensorPattern m) : List (ℤ × ℤ) :=
  (usedPairs p).filter (fun q => decide (q.1 ≠ 1))

/-- Ordering of `(dim, stride)` pairs by descending absolute stride. -/
def absDesc (a b : ℤ × ℤ) : Prop := |b.2| ≤ |a.2|

instance : DecidableRel absDesc := fun _ _ => inferInstanceAs (Decidable (_ ≤ _))

instance : IsTotal (ℤ × ℤ) absDesc := ⟨fun _ _ => le_total _ _⟩

instance : IsTrans (ℤ × ℤ) absDesc := ⟨fun _ _ _ h h2 => le_trans h2 h⟩

/-- Stable sort of `(dim, stride)` pairs from greatest to least absolute
stride, as in the header comment on the uniqueness property. -/
def sortDesc (l : List (ℤ × ℤ)) : List (ℤ × ℤ) := l.insertionSort absDesc

/-- Walk adjacent pairs of a list checking a boolean condition. -/
def chainHolds {α : Type} (f : α → α → Bool) : List α → Bool
  | [] => true
  | [_] => true
  | a :: b :: t => f a b && chainHolds f (b :: t)

/-- The adjacent-pair inequality of the uniqueness property:
`abs(strides[i]) >= dims[i+1] * abs(strides[i+1])`. -/
def noAliasRel (a b : ℤ × ℤ) : Prop := b.1 * |b.2| ≤ |a.2|

/-- The adjacent-pair equality characterizing a gap-free (contiguous) sorted
chain: `abs(strides[i]) = dims[i+1] * abs(strides[i+1])`. -/
def noGapRel (a b : ℤ × ℤ) : Prop := |a.2| = b.1 * |b.2|

instance : DecidableRel noAliasRel := fun _ _ => inferInstanceAs (Decidable (_ ≤ _))

instance : DecidableRel noGapRel := fun _ _ => inferInstanceAs (Decidable (_ = _))

/-- Modelled from the spec: the per-used-slot requirement of the header,
`dims[i] > 0`, `dims[i] == 1 -> strides[i] == 0`,
`dims[i] != 1 -> strides[i] != 0`. -/
def slotIsValid (q : ℤ × ℤ) : Bool :=
  decide (0 < q.1) && (if q.1 = 1 then decide (q.2 = 0) else decide (q.2 ≠ 0))

/-- Modelled from the spec: the uniqueness (no-aliasing) test of
`TensorPattern::IsValid` (whose body is not in the sources at hand): sort the
axes with `dim != 1` from greatest to least absolute stride and check
`abs(strides[i]) >= dims[i+1] * abs(strides[i+1])` for each adjacent pair. -/
def uniquenessHolds {m : ℕ} (p : TensorPattern m) : Bool :=
  chainHolds (fun a b => decide (noAliasRel a b)) (sortDesc (nontrivPairs p))

/-- Modelled from the spec: `TensorPattern::IsValid(check_code = false)`
(body not in the sources at hand): invariant 1 (`0 <= num_axes <= MAX`),
invariant 2 (used slots), invariant 3 (unused slots hold dim 1, stride 0)
and invariant 4 (the uniqueness property). -/
def IsValidNoCode {m : ℕ} (p : TensorPattern m) : Bool :=
  decide (0 ≤ p.num_axes) && decide (p.num_axes ≤ (m : ℤ)) &&
  (usedPairs p).all slotIsValid &&
  (unusedPairs p).all (fun q => decide (q.1 = 1) && decide (q.2 = 0)) &&
  uniquenessHolds p

/-- Modelled from the spec: `TensorPattern::IsValid(check_code)` (body not in
the sources at hand).  The pattern-code function (`ComputePatternCode` of
`tensor-pattern-utils.h`, also not in the sources at hand) is an opaque
fingerprint of the dims and strides, taken here as a parameter `cc`.  With
`check_code = true` the check additionally requires the recomputed fingerprint
to equal the stored `code`. -/
def IsValid {m : ℕ} (cc : List ℤ → List ℤ → ℤ) (p : TensorPattern m)
    (check_code : Bool) : Bool :=
  if check_code then IsValidNoCode p && decide (cc p.dims p.strides = p.code)
  else IsValidNoCode p

/-- The call `IsValid()` with the declared default argument
`check_code = true` of the header. -/
def IsValidDefaultArg {m : ℕ} (cc : List ℤ → List ℤ → ℤ)
    (p : TensorPattern m) : Bool :=
  IsValid cc p true

/-- Model of `struct TensorPatternProperties`. -/
structure TensorPatternProperties where
  num_elements : ℤ
  code : ℤ
  is_contiguous : Bool
  has_c_strides : Bool
deriving DecidableEq

/-- The number of elements: the product of the dims of the used slots. -/
def numElementsOf {m : ℕ} (p : TensorPattern m) : ℤ :=
  (p.dims.take (nUsed p)).prod

/-- Modelled from the spec: `is_contiguous` (derivation body not in the
sources at hand): the data form one block, i.e. the chain sorted from
greatest to least absolute stride has no gaps. -/
def contiguousHolds {m : ℕ} (p : TensorPattern m) : Bool :=
  chainHolds (fun a b => decide (noGapRel a b)) (sortDesc (nontrivPairs p))

/-- Helper for `has_c_strides`: walk the used slots in raxis order keeping the
running product `acc` of the dims already passed (the product of all
later-numbered logical dims); an axis with `dim != 1` must have stride equal
to that product, an axis with `dim == 1` must have stride 0. -/
def cStridesCheck (acc : ℤ) : List (ℤ × ℤ) → Bool
  | [] => true
  | q :: t => (if q.1 = 1 then decide (q.2 = 0) else decide (q.2 = acc)) &&
      cStridesCheck (acc * q.1) t

/-- Modelled from the spec: `has_c_strides` (derivation body not in the
sources at hand): every used axis `i` with `dim != 1` has
`strides[i] = prod of all later-numbered logical dims` (in raxis order, the
product of the dims at raxis below it), and stride 0 when `dim == 1`. -/
def hasCStridesOf {m : ℕ} (p : TensorPattern m) : Bool :=
  cStridesCheck 1 (usedPairs p)

/-- Modelled from the spec: `TensorPatternProperties::UpdateProperties`
(body not in the sources at hand): sets the members from `pattern`, ignoring
the previously existing values of `*this` (the `_old` argument), and
recomputing the code from the dims and strides rather than trusting the
pattern's cached `code`. -/
def UpdateProperties {m : ℕ} (cc : List ℤ → List ℤ → ℤ)
    (_old : TensorPatternProperties) (p : TensorPattern m) :
    TensorPatternProperties :=
  { num_elements := numElementsOf p
    code := cc p.dims p.strides
    is_contiguous := contiguousHolds p
    has_c_strides := hasCStridesOf p }

/-- Modelled from the spec: the accessor `dim(i)` of the `Tensor` class (not
in the sources at hand): the size of logical axis `i` is read from slot
`num_axes - 1 - i` of the raxis-indexed `dims` array. -/
def dim {m : ℕ} (p : TensorPattern m) (i : ℕ) : ℤ :=
  p.dims.getD (nUsed p - 1 - i) 0

/-- An index tuple for the used axes, in raxis order: one integer per used
slot, each within `[0, dims[r])`. -/
def InBounds {m : ℕ} (p : TensorPattern m) (ix : List ℤ) : Prop :=
  ix.length = nUsed p ∧
  ∀ r, r < nUsed p → 0 ≤ ix.getD r 0 ∧ ix.getD r 0 < p.dims.getD r 0

instance {m : ℕ} (p : TensorPattern m) (ix : List ℤ) : Decidable (InBounds p ix) :=
  inferInstanceAs (Decidable (ix.length = nUsed p ∧
    ∀ r, r < nUsed p → 0 ≤ ix.getD r 0 ∧ ix.getD r 0 < p.dims.getD r 0))

/-- The sum of `index * stride` over a list of `((dim, stride), index)`
triples. -/
def dotProd (t : List ((ℤ × ℤ) × ℤ)) : ℤ :=
  (t.map (fun u => u.2 * u.1.2)).sum

/-- The memory address of an index tuple: the sum over the used axes of
`index[r] * strides[r]`. -/
def address {m : ℕ} (p : TensorPattern m) (ix : List ℤ) : ℤ :=
  dotProd ((usedPairs p).zip ix)

/-- Invariant 1 of the header: `0 <= num_axes <= KALDI_TENSOR_MAX_DIM`. -/
def Invariant1 {m : ℕ} (p : TensorPattern m) : Prop :=
  0 ≤ p.num_axes ∧ p.num_axes ≤ (m : ℤ)

/-- Invariant 2 of the header: every used slot has `dims[i] > 0`, stride zero
when `dims[i] = 1`, and nonzero stride when `dims[i] != 1`. -/
def Invariant2 {m : ℕ} (p : TensorPattern m) : Prop :=
  ∀ r, r < nUsed p →
    0 < p.dims.getD r 0 ∧
    (p.dims.getD r 0 = 1 → p.strides.getD r 0 = 0) ∧
    (p.dims.getD r 0 ≠ 1 → p.strides.getD r 0 ≠ 0)

/-- Invariant 3 of the header: every unused slot has `dims[i] = 1` and
`strides[i] = 0`. -/
def Invariant3 {m : ℕ} (p : TensorPattern m) : Prop :=
  ∀ r, nUsed p ≤ r → r < m → p.dims.getD r 0 = 1 ∧ p.strides.getD r 0 = 0

/-- Invariant 4 of the header (the uniqueness property test): the axes with
`dim != 1`, stably sorted from greatest to least absolute stride, satisfy
`abs(strides[i]) >= dims[i+1] * abs(strides[i+1])` for each adjacent pair. -/
def Invariant4 {m : ℕ} (p : TensorPattern m) : Prop :=
  Chain' noAliasRel (sortDesc (nontrivPairs p))

instance {m : ℕ} (p : TensorPattern m) : Decidable (Invariant1 p) :=
  inferInstanceAs (Decidable (_ ∧ _))

instance {m : ℕ} (p : TensorPattern m) : Decidable (Invariant2 p) :=
  inferInstanceAs (Decidable (∀ r, r < nUsed p → _ ∧ _ ∧ _))

instance {m : ℕ} (p : TensorPattern m) : Decidable (Invariant3 p) :=
  inferInstanceAs (Decidable (∀ r, nUsed p ≤ r → r < m → _ ∧ _))


/-- The ordering `absDesc` lifted to `((dim, stride), index)` triples. -/
def absDescT (a b : (ℤ × ℤ) × ℤ) : Prop := absDesc a.1 b.1

instance : DecidableRel absDescT :=
  fun a b => inferInstanceAs (Decidable (absDesc a.1 b.1))

/-- Stable sort of `((dim, stride), index)` triples from greatest to least
absolute stride of the pair component. -/
def sortDescT (t : List ((ℤ × ℤ) × ℤ)) : List ((ℤ × ℤ) × ℤ) :=
  t.insertionSort absDescT

/-- The largest absolute offset a list of `(dim, stride)` axes can produce:
the sum of `(dim - 1) * abs stride`. -/
def offB (l : List (ℤ × ℤ)) : ℤ :=
  (l.map (fun q => (q.1 - 1) * |q.2|)).sum

/-- Every index of a triple list is within `[0, dim)` of its axis. -/
def BndMem (t : List ((ℤ × ℤ) × ℤ)) : Prop :=
  ∀ u ∈ t, 0 ≤ u.2 ∧ u.2 < u.1.1

/-- The strides of a `(dim, stride)` list follow the running product `acc`:
the first stride equals `acc`, and each axis multiplies the product by its
dim.  This is the shape `cStridesCheck` certifies on the axes with
`dim != 1`. -/
def AscChain : ℤ → List (ℤ × ℤ) → Prop
  | _, [] => True
  | acc, q :: t => q.2 = acc ∧ AscChain (acc * q.1) t

/-- Scenario A of the spec (dense row-major): logical sizes `[2,3,4]`,
strides `[12,4,1]`, stored in raxis (reversed) order. -/
def patternA : TensorPattern 5 := ⟨3, [4, 3, 2, 1, 1], [1, 4, 12, 0, 0], 0, rfl, rfl⟩

/-- Scenario B of the spec (dense permuted): logical sizes `[3,4]`,
strides `[1,3]`, stored in raxis order. -/
def patternB : TensorPattern 5 := ⟨2, [4, 3, 1, 1, 1], [3, 1, 0, 0, 0], 0, rfl, rfl⟩

/-- Scenario C of the spec (overlap/aliasing): logical sizes `[4,4]`,
strides `[1,2]`, stored in raxis order. -/
def patternC : TensorPattern 5 := ⟨2, [4, 4, 1, 1, 1], [2, 1, 0, 0, 0], 0, rfl, rfl⟩

/-- A valid two-axis pattern, logical sizes `[3,4]` with strides `[4,1]`,
stored in raxis order. -/
def patternT : TensorPattern 5 := ⟨2, [4, 3, 1, 1, 1], [1, 4, 0, 0, 0], 0, rfl, rfl⟩

/-- A valid pattern with a gap: logical sizes `[2,2]`, strides `[4,1]`, the
occupied addresses `0,1,4,5` are not one block. -/
def patternGap : TensorPattern 5 := ⟨2, [2, 2, 1, 1, 1], [1, 4, 0, 0, 0], 0, rfl, rfl⟩

/-- Scenario D of the spec: `axis_count = 0`, all slots at the default
`(dim 1, stride 0)`. -/
def scalarPattern (m : ℕ) : TensorPattern m :=
  ⟨0, List.replicate m 1, List.replicate m 0, 0, by simp, by simp⟩

/-- A Pattern violating invariant 2: its single used slot has `dim = 4` but
`stride = 0`. -/
def patternBadSlot : TensorPattern 5 := ⟨1, [4, 1, 1, 1, 1], [0, 0, 0, 0, 0], 0, rfl, rfl⟩

/-- A Pattern violating invariant 3: `num_axes = 0` but the unused slot 0
holds `(dim 2, stride 1)` instead of `(1, 0)`. -/
def patternBadUnused : TensorPattern 5 := ⟨0, [2, 1, 1, 1, 1], [1, 0, 0, 0, 0], 0, rfl, rfl⟩

/-- The Pattern of scenario A but with a stored `code` of 7, standing for a
fingerprint left stale by a mutation. -/
def patternStale : TensorPattern 5 := ⟨3, [4, 3, 2, 1, 1], [1, 4, 12, 0, 0], 7, rfl, rfl⟩

lemma chainHolds_iff_chain' {α : Type} (f : α → α → Bool) (l : List α) :
    chainHolds f l = true ↔ Chain' (fun a b => f a b = true) l := by
  induction l with
  | nil => simp [chainHolds]
  | cons a t ih =>
    cases t with
    | nil => simp [chainHolds]
    | cons b t2 =>
      rw [chainHolds, Bool.and_eq_true, chain'_cons, ih]

lemma usedPairs_length {m : ℕ} (p : TensorPattern m) (hn : nUsed p ≤ m) :
    (usedPairs p).length = nUsed p := by
  simp [usedPairs, List.length_zip, List.length_take, p.dims_length, p.strides_length]
  omega

lemma getElem_usedPairs {m : ℕ} (p : TensorPattern m) (r : ℕ)
    (h : r < (usedPairs p).length) :
    (usedPairs p)[r] = (p.dims.getD r 0, p.strides.getD r 0) := by
  have hlen : (usedPairs p).length = min (nUsed p) m := by
    simp [usedPairs, List.length_zip, List.length_take, p.dims_length, p.strides_length]
  have h1 : r < p.dims.length := by rw [p.dims_length]; omega
  have h2 : r < p.strides.length := by rw [p.strides_length]; omega
  have h3 : r < (p.dims.take (nUsed p)).length := by
    simp [List.length_take, p.dims_length]; omega
  have h4 : r < (p.strides.take (nUsed p)).length := by
    simp [List.length_take, p.strides_length]; omega
  simp [usedPairs, List.getElem_zip, List.getElem_take, List.getD_eq_getElem?_getD,
    List.getElem?_eq_getElem, h1, h2]

lemma usedPairs_all_iff {m : ℕ} (p : TensorPattern m) (f : ℤ × ℤ → Bool)
    (hn : nUsed p ≤ m) :
    ((usedPairs p).all f = true ↔
      ∀ r, r < nUsed p → f (p.dims.getD r 0, p.strides.getD r 0) = true) := by
  rw [List.all_eq_true]
  constructor
  · intro h r hr
    have hr2 : r < (usedPairs p).length := by rw [usedPairs_length p hn]; exact hr
    have := h _ (List.getElem_mem hr2)
    rwa [getElem_usedPairs p r hr2] at this
  · intro h q hq
    rw [List.mem_iff_getElem] at hq
    obtain ⟨r, hr, rfl⟩ := hq
    rw [getElem_usedPairs p r hr]
    exact h r (by rw [usedPairs_length p hn] at hr; exact hr)

lemma unusedPairs_length {m : ℕ} (p : TensorPattern m) :
    (unusedPairs p).length = m - nUsed p := by
  simp [unusedPairs, List.length_zip, List.length_drop, p.dims_length, p.strides_length]

lemma getElem_unusedPairs {m : ℕ} (p : TensorPattern m) (k : ℕ)
    (h : k < (unusedPairs p).length) :
    (unusedPairs p)[k] = (p.dims.getD (nUsed p + k) 0, p.strides.getD (nUsed p + k) 0) := by
  rw [unusedPairs_length] at h
  have h1 : nUsed p + k < p.dims.length := by rw [p.dims_length]; omega
  have h2 : nUsed p + k < p.strides.length := by rw [p.strides_length]; omega
  have h3 : k < (p.dims.drop (nUsed p)).length := by
    simp [List.length_drop, p.dims_length]; omega
  have h4 : k < (p.strides.drop (nUsed p)).length := by
    simp [List.length_drop, p.strides_length]; omega
  simp [unusedPairs, List.getElem_zip, List.getElem_drop, List.getD_eq_getElem?_getD,
    List.getElem?_eq_getElem, h1, h2]

lemma unusedPairs_all_iff {m : ℕ} (p : TensorPattern m) (f : ℤ × ℤ → Bool) :
    ((unusedPairs p).all f = true ↔
      ∀ r, nUsed p ≤ r → r < m →
        f (p.dims.getD r 0, p.strides.getD r 0) = true) := by
  rw [List.all_eq_true]
  constructor
  · intro h r hr1 hr2
    have hk : r - nUsed p < (unusedPairs p).length := by rw [unusedPairs_length]; omega
    have := h _ (List.getElem_mem hk)
    rw [getElem_unusedPairs p _ hk] at this
    have hr3 : nUsed p + (r - nUsed p) = r := by omega
    rwa [hr3] at this
  · intro h q hq
    rw [List.mem_iff_getElem] at hq
    obtain ⟨k, hk, rfl⟩ := hq
    rw [getElem_unusedPairs p k hk]
    rw [unusedPairs_length] at hk
    exact h (nUsed p + k) (by omega) (by omega)

lemma slotIsValid_iff (q : ℤ × ℤ) :
    slotIsValid q = true ↔
      0 < q.1 ∧ (q.1 = 1 → q.2 = 0) ∧ (q.1 ≠ 1 → q.2 ≠ 0) := by
  by_cases h : q.1 = 1 <;> simp [slotIsValid, h]

lemma uniquenessHolds_iff {m : ℕ} (p : TensorPattern m) :
    uniquenessHolds p = true ↔ Invariant4 p := by
  rw [uniquenessHolds, chainHolds_iff_chain', Invariant4]
  simp only [decide_eq_true_eq]

lemma isValidNoCode_iff {m : ℕ} (p : TensorPattern m) :
    IsValidNoCode p = true ↔
      Invariant1 p ∧ Invariant2 p ∧ Invariant3 p ∧ Invariant4 p := by
  rw [IsValidNoCode]
  simp only [Bool.and_eq_true, decide_eq_true_eq]
  constructor
  · rintro ⟨⟨⟨⟨h0, h1⟩, h2⟩, h3⟩, h4⟩
    have hn : nUsed p ≤ m := by simp only [nUsed]; omega
    refine ⟨⟨h0, h1⟩, ?_, ?_, (uniquenessHolds_iff p).mp h4⟩
    · intro r hr
      have := (usedPairs_all_iff p slotIsValid hn).mp h2 r hr
      rw [slotIsValid_iff] at this
      exact this
    · intro r hr1 hr2
      have := (unusedPairs_all_iff p _).mp h3 r hr1 hr2
      simpa using this
  · rintro ⟨⟨h0, h1⟩, h2, h3, h4⟩
    have hn : nUsed p ≤ m := by simp only [nUsed]; omega
    refine ⟨⟨⟨⟨h0, h1⟩, ?_⟩, ?_⟩, (uniquenessHolds_iff p).mpr h4⟩
    · exact (usedPairs_all_iff p slotIsValid hn).mpr
        (fun r hr => (slotIsValid_iff _).mpr (h2 r hr))
    · exact (unusedPairs_all_iff p _).mpr
        (fun r ha hb => by simpa using h3 r ha hb)

lemma valid_nUsed_le {m : ℕ} (p : TensorPattern m) (h : IsValidNoCode p = true) :
    nUsed p ≤ m := by
  have := ((isValidNoCode_iff p).mp h).1
  rw [Invariant1] at this
  simp only [nUsed]
  omega

lemma valid_used_mem {m : ℕ} (p : TensorPattern m) (h : IsValidNoCode p = true) :
    ∀ q ∈ usedPairs p, 0 < q.1 ∧ (q.1 = 1 → q.2 = 0) ∧ (q.1 ≠ 1 → q.2 ≠ 0) := by
  intro q hq
  rw [IsValidNoCode] at h
  simp only [Bool.and_eq_true] at h
  have := List.all_eq_true.mp h.1.1.2 q hq
  rwa [slotIsValid_iff] at this

lemma valid_chain {m : ℕ} (p : TensorPattern m) (h : IsValidNoCode p = true) :
    Chain' noAliasRel (sortDesc (nontrivPairs p)) := by
  rw [IsValidNoCode] at h
  simp only [Bool.and_eq_true] at h
  exact (uniquenessHolds_iff p).mp h.2

lemma valid_nontriv_mem {m : ℕ} (p : TensorPattern m) (h : IsValidNoCode p = true) :
    ∀ q ∈ nontrivPairs p, 2 ≤ q.1 ∧ q.2 ≠ 0 := by
  intro q hq
  rw [nontrivPairs, List.mem_filter] at hq
  have h1 := valid_used_mem p h q hq.1
  have h2 : q.1 ≠ 1 := by simpa using hq.2
  exact ⟨by omega, h1.2.2 h2⟩

lemma valid_sorted_mem {m : ℕ} (p : TensorPattern m) (h : IsValidNoCode p = true) :
    ∀ q ∈ sortDesc (nontrivPairs p), 2 ≤ q.1 ∧ q.2 ≠ 0 := by
  intro q hq
  exact valid_nontriv_mem p h q ((List.perm_insertionSort absDesc _).mem_iff.mp hq)

lemma offB_lt_of_chain : ∀ (l : List (ℤ × ℤ)) (q : ℤ × ℤ),
    Chain' noAliasRel (q :: l) → (∀ x ∈ q :: l, x.2 ≠ 0) → offB l < |q.2| := by
  intro l
  induction l with
  | nil =>
    intro q _ hz
    have : q.2 ≠ 0 := hz q (by simp)
    simp only [offB, List.map_nil, List.sum_nil]
    exact abs_pos.mpr this
  | cons b t ih =>
    intro q hc hz
    rw [chain'_cons] at hc
    have h1 : offB t < |b.2| := ih b hc.2 (fun x hx => hz x (List.mem_cons_of_mem q hx))
    have h2 : b.1 * |b.2| ≤ |q.2| := hc.1
    have h3 : offB (b :: t) = (b.1 - 1) * |b.2| + offB t := by
      simp [offB]
    rw [h3]
    nlinarith [h1, h2]

lemma dotProd_cons (a : (ℤ × ℤ) × ℤ) (t : List ((ℤ × ℤ) × ℤ)) :
    dotProd (a :: t) = a.2 * a.1.2 + dotProd t := by
  simp [dotProd]

lemma dot_diff_bound : ∀ (t u : List ((ℤ × ℤ) × ℤ)),
    t.map Prod.fst = u.map Prod.fst → BndMem t → BndMem u →
    |dotProd t - dotProd u| ≤ offB (t.map Prod.fst) := by
  intro t
  induction t with
  | nil =>
    intro u hmap _ _
    cases u with
    | nil => simp [dotProd, offB]
    | cons b u2 => simp at hmap
  | cons a t2 ih =>
    intro u hmap hbt hbu
    cases u with
    | nil => simp at hmap
    | cons b u2 =>
      simp only [List.map_cons, List.cons.injEq] at hmap
      obtain ⟨hab, hmap2⟩ := hmap
      have hba : b.1.2 = a.1.2 := by rw [hab]
      have hd1 := hbt a (by simp)
      have hd2 := hbu b (by simp)
      have hdd : b.1.1 = a.1.1 := by rw [hab]
      have habs : |a.2 - b.2| ≤ a.1.1 - 1 := by
        rw [abs_le]
        constructor <;> omega
      have hrest : |dotProd t2 - dotProd u2| ≤ offB (t2.map Prod.fst) :=
        ih u2 hmap2 (fun x hx => hbt x (by simp [hx]))
          (fun x hx => hbu x (by simp [hx]))
      rw [dotProd_cons, dotProd_cons, hba]
      have hsplit : a.2 * a.1.2 + dotProd t2 - (b.2 * a.1.2 + dotProd u2) =
          (a.2 - b.2) * a.1.2 + (dotProd t2 - dotProd u2) := by ring
      rw [hsplit]
      have htri := abs_add ((a.2 - b.2) * a.1.2) (dotProd t2 - dotProd u2)
      have hmul : |(a.2 - b.2) * a.1.2| ≤ (a.1.1 - 1) * |a.1.2| := by
        rw [abs_mul]
        exact mul_le_mul_of_nonneg_right habs (abs_nonneg _)
      have hoff : offB ((a :: t2).map Prod.fst) =
          (a.1.1 - 1) * |a.1.2| + offB (t2.map Prod.fst) := by
        simp [offB]
      rw [hoff]
      linarith

lemma inj_chain : ∀ (t u : List ((ℤ × ℤ) × ℤ)),
    t.map Prod.fst = u.map Prod.fst →
    Chain' noAliasRel (t.map Prod.fst) →
    (∀ x ∈ t.map Prod.fst, x.2 ≠ 0) →
    BndMem t → BndMem u → dotProd t = dotProd u → t = u := by
  intro t
  induction t with
  | nil =>
    intro u hmap _ _ _ _ _
    cases u with
    | nil => rfl
    | cons b u2 => simp at hmap
  | cons a t2 ih =>
    intro u hmap hchain hnz hbt hbu hdot
    cases u with
    | nil => simp at hmap
    | cons b u2 =>
      simp only [List.map_cons, List.cons.injEq] at hmap
      obtain ⟨hab, hmap2⟩ := hmap
      have hba : b.1.2 = a.1.2 := by rw [hab]
      rw [dotProd_cons, dotProd_cons, hba] at hdot
      have hrest : |dotProd t2 - dotProd u2| ≤ offB (t2.map Prod.fst) :=
        dot_diff_bound t2 u2 hmap2 (fun x hx => hbt x (by simp [hx]))
          (fun x hx => hbu x (by simp [hx]))
      have hlt : offB (t2.map Prod.fst) < |a.1.2| := by
        apply offB_lt_of_chain (t2.map Prod.fst) a.1
        · exact (by simpa using hchain)
        · intro x hx
          exact hnz x (by simpa using hx)
      by_cases hij : a.2 = b.2
      · have ha2 : a = b := by
          cases a with
          | mk a1 a2 =>
            cases b with
            | mk b1 b2 => simp_all
        have hdt : dotProd t2 = dotProd u2 := by
          rw [hij] at hdot
          linarith
        rw [ha2, ih u2 hmap2 (by simpa using hchain.tail)
          (fun x hx => hnz x (by simp [hx])) (fun x hx => hbt x (by simp [hx]))
          (fun x hx => hbu x (by simp [hx])) hdt]
      · exfalso
        have hdiff : (a.2 - b.2) * a.1.2 = dotProd u2 - dotProd t2 := by linarith
        have h1 : 1 ≤ |a.2 - b.2| := Int.one_le_abs (sub_ne_zero.mpr hij)
        have h2 : |a.1.2| ≤ |(a.2 - b.2) * a.1.2| := by
          rw [abs_mul]
          nlinarith [abs_nonneg a.1.2]
        have h3 : |dotProd u2 - dotProd t2| ≤ offB (t2.map Prod.fst) := by
          rw [abs_sub_comm]
          exact hrest
        rw [hdiff] at h2
        linarith

lemma map_fst_orderedInsert : ∀ (t : List ((ℤ × ℤ) × ℤ)) (x : (ℤ × ℤ) × ℤ),
    (List.orderedInsert absDescT x t).map Prod.fst =
      List.orderedInsert absDesc x.1 (t.map Prod.fst) := by
  intro t x
  induction t with
  | nil => simp [List.orderedInsert]
  | cons b t2 ih =>
    simp only [List.orderedInsert, List.map_cons]
    by_cases h : absDesc x.1 b.1
    · rw [if_pos h, if_pos (show absDescT x b from h)]
      simp
    · rw [if_neg h, if_neg (show ¬ absDescT x b from h)]
      simp [ih]

lemma map_fst_sortDescT : ∀ (t : List ((ℤ × ℤ) × ℤ)),
    (sortDescT t).map Prod.fst = sortDesc (t.map Prod.fst) := by
  intro t
  induction t with
  | nil => rfl
  | cons a t2 ih =>
    show (List.orderedInsert absDescT a (sortDescT t2)).map Prod.fst = _
    rw [map_fst_orderedInsert, ih]
    rfl

lemma perm_eq_of_fst_eq : ∀ (t u : List ((ℤ × ℤ) × ℤ)),
    t.map Prod.fst = u.map Prod.fst → (t.map Prod.fst).Nodup →
    t.Perm u → t = u := by
  intro t
  induction t with
  | nil =>
    intro u _ _ hperm
    exact (hperm.nil_eq).symm ▸ rfl
  | cons a t2 ih =>
    intro u hmap hnd hperm
    cases u with
    | nil => simp at hmap
    | cons b u2 =>
      simp only [List.map_cons, List.cons.injEq] at hmap
      obtain ⟨hab, hmap2⟩ := hmap
      have hmem : a ∈ b :: u2 := hperm.subset (by simp)
      rcases List.mem_cons.mp hmem with heq | hmem2
      · rw [heq] at hperm ⊢
        rw [ih u2 hmap2 (by simp at hnd; exact hnd.2) hperm.cons_inv]
      · exfalso
        have hin : a.1 ∈ u2.map Prod.fst := List.mem_map_of_mem Prod.fst hmem2
        rw [← hmap2] at hin
        simp only [List.map_cons, List.nodup_cons] at hnd
        exact hnd.1 hin

lemma chain_lt_of_mem : ∀ (l : List (ℤ × ℤ)) (a : ℤ × ℤ),
    Chain' noAliasRel (a :: l) → (∀ x ∈ a :: l, 2 ≤ x.1 ∧ x.2 ≠ 0) →
    ∀ b ∈ l, |b.2| < |a.2| := by
  intro l
  induction l with
  | nil => intro a _ _ b hb; simp at hb
  | cons c t ih =>
    intro a hc hm b hb
    rw [chain'_cons] at hc
    have hrel : c.1 * |c.2| ≤ |a.2| := hc.1
    have hc2 := hm c (by simp)
    have hone : 1 ≤ |c.2| := Int.one_le_abs hc2.2
    have hlt : |c.2| < |a.2| := by nlinarith [hc2.1]
    rcases List.mem_cons.mp hb with heq | hmem
    · rw [heq]; exact hlt
    · have := ih c hc.2 (fun x hx => hm x (List.mem_cons_of_mem a hx)) b hmem
      linarith

lemma chain_pairwise_lt (l : List (ℤ × ℤ)) (hc : Chain' noAliasRel l)
    (hm : ∀ x ∈ l, 2 ≤ x.1 ∧ x.2 ≠ 0) :
    l.Pairwise (fun a b => |b.2| < |a.2|) := by
  induction l with
  | nil => exact List.Pairwise.nil
  | cons a t ih =>
    refine List.Pairwise.cons (chain_lt_of_mem t a hc hm) ?_
    exact ih hc.tail (fun x hx => hm x (List.mem_cons_of_mem a hx))

lemma pairwise_lt_nodup (l : List (ℤ × ℤ))
    (h : l.Pairwise (fun a b => |b.2| < |a.2|)) : l.Nodup :=
  h.imp (fun {a b} hlt => by
    intro heq
    rw [heq] at hlt
    exact lt_irrefl _ hlt)

lemma eq_of_perm_sorted_strict : ∀ (l₁ l₂ : List (ℤ × ℤ)), l₁.Perm l₂ →
    l₁.Pairwise (fun a b => |b.2| < |a.2|) → l₂.Sorted absDesc → l₁ = l₂ := by
  intro l₁
  induction l₁ with
  | nil =>
    intro l₂ hperm _ _
    exact hperm.nil_eq
  | cons a t₁ ih =>
    intro l₂ hperm hpw hsort
    cases l₂ with
    | nil => exact absurd hperm.symm.nil_eq (by simp)
    | cons b t₂ =>
      have hab : a = b := by
        by_contra hne
        have hmb : b ∈ a :: t₁ := hperm.symm.subset (by simp)
        have hma : a ∈ b :: t₂ := hperm.subset (by simp)
        have h1 : |b.2| < |a.2| := by
          rcases List.mem_cons.mp hmb with heq | hmem
          · exact absurd heq.symm hne
          · exact (List.pairwise_cons.mp hpw).1 b hmem
        have h2 : |a.2| ≤ |b.2| := by
          rcases List.mem_cons.mp hma with heq | hmem
          · exact absurd heq hne
          · exact (List.sorted_cons.mp hsort).1 a hmem
        linarith
      rw [hab] at hperm hpw ⊢
      rw [ih t₂ hperm.cons_inv (List.pairwise_cons.mp hpw).2
        (List.sorted_cons.mp hsort).2]

lemma map_fst_filter_dim : ∀ (t : List ((ℤ × ℤ) × ℤ)) (g : ℤ × ℤ → Bool),
    (t.filter (fun u => g u.1)).map Prod.fst = (t.map Prod.fst).filter g := by
  intro t g
  induction t with
  | nil => rfl
  | cons a t2 ih =>
    by_cases h : g a.1 = true <;> simp [List.filter_cons, h, ih]

lemma dotProd_filter : ∀ (t : List ((ℤ × ℤ) × ℤ)),
    (∀ u ∈ t, u.1.1 = 1 → u.2 = 0) →
    dotProd (t.filter (fun u => decide (u.1.1 ≠ 1))) = dotProd t := by
  intro t
  induction t with
  | nil => intro _; rfl
  | cons a t2 ih =>
    intro h
    have ht2 : ∀ u ∈ t2, u.1.1 = 1 → u.2 = 0 :=
      fun u hu => h u (List.mem_cons_of_mem a hu)
    by_cases hd : a.1.1 = 1
    · have hz : a.2 = 0 := h a (by simp) hd
      rw [List.filter_cons, if_neg (by simp [hd]), dotProd_cons, ih ht2, hz]
      ring
    · rw [List.filter_cons, if_pos (by simp [hd]), dotProd_cons, dotProd_cons, ih ht2]

lemma dotProd_perm {t u : List ((ℤ × ℤ) × ℤ)} (h : t.Perm u) :
    dotProd t = dotProd u :=
  (h.map _).sum_eq

lemma bndMem_perm {t u : List ((ℤ × ℤ) × ℤ)} (h : t.Perm u) (hb : BndMem t) :
    BndMem u :=
  fun x hx => hb x (h.mem_iff.mpr hx)

lemma bndMem_filter {t : List ((ℤ × ℤ) × ℤ)} (g : (ℤ × ℤ) × ℤ → Bool)
    (hb : BndMem t) : BndMem (t.filter g) :=
  fun x hx => hb x (List.mem_of_mem_filter hx)

lemma inBounds_zip_bndMem {m : ℕ} (p : TensorPattern m) (ix : List ℤ)
    (hn : nUsed p ≤ m) (hb : InBounds p ix) :
    BndMem ((usedPairs p).zip ix) := by
  intro u hu
  rw [List.mem_iff_getElem] at hu
  obtain ⟨k, hk, rfl⟩ := hu
  have hk1 : k < (usedPairs p).length := by
    rw [List.length_zip] at hk
    omega
  have hk2 : k < ix.length := by
    rw [List.length_zip] at hk
    omega
  have hkn : k < nUsed p := by
    rw [usedPairs_length p hn] at hk1
    exact hk1
  have hbk := hb.2 k hkn
  rw [List.getElem_zip, getElem_usedPairs p k hk1]
  rw [List.getD_eq_getElem ix 0 hk2] at hbk
  simpa using hbk

lemma map_fst_zip_used {m : ℕ} (p : TensorPattern m) (ix : List ℤ)
    (hn : nUsed p ≤ m) (hlen : ix.length = nUsed p) :
    ((usedPairs p).zip ix).map Prod.fst = usedPairs p :=
  List.map_fst_zip _ _ (by rw [usedPairs_length p hn, hlen])

lemma address_eq_dotProd_filter {m : ℕ} (p : TensorPattern m) (ix : List ℤ)
    (hn : nUsed p ≤ m) (hb : InBounds p ix) :
    address p ix =
      dotProd (((usedPairs p).zip ix).filter (fun u => decide (u.1.1 ≠ 1))) := by
  rw [address]
  refine (dotProd_filter _ ?_).symm
  intro u hu h1
  have := inBounds_zip_bndMem p ix hn hb u hu
  omega

lemma unfilter_eq : ∀ (b : List (ℤ × ℤ)) (ix jx : List ℤ),
    ix.length = b.length → jx.length = b.length →
    BndMem (b.zip ix) → BndMem (b.zip jx) →
    (b.zip ix).filter (fun u => decide (u.1.1 ≠ 1)) =
      (b.zip jx).filter (fun u => decide (u.1.1 ≠ 1)) →
    ix = jx := by
  intro b
  induction b with
  | nil =>
    intro ix jx hix hjx _ _ _
    rw [List.length_nil, List.length_eq_zero] at hix hjx
    rw [hix, hjx]
  | cons q b2 ih =>
    intro ix jx hix hjx hbi hbj hf
    cases ix with
    | nil => simp at hix
    | cons i ix2 =>
      cases jx with
      | nil => simp at hjx
      | cons j jx2 =>
        simp only [List.length_cons] at hix hjx
        simp only [List.zip_cons_cons] at hbi hbj hf
        by_cases hq : q.1 = 1
        · have hi0 : i = 0 := by
            have := hbi (q, i) (by simp)
            simp only at this
            omega
          have hj0 : j = 0 := by
            have := hbj (q, j) (by simp)
            simp only at this
            omega
          rw [List.filter_cons, List.filter_cons, if_neg (by simp [hq]),
            if_neg (by simp [hq])] at hf
          rw [hi0, hj0,
            ih ix2 jx2 (by omega) (by omega)
              (fun x hx => hbi x (List.mem_cons_of_mem _ hx))
              (fun x hx => hbj x (List.mem_cons_of_mem _ hx)) hf]
        · rw [List.filter_cons, List.filter_cons, if_pos (by simp [hq]),
            if_pos (by simp [hq])] at hf
          simp only [List.cons.injEq, Prod.mk.injEq] at hf
          rw [hf.1.2,
            ih ix2 jx2 (by omega) (by omega)
              (fun x hx => hbi x (List.mem_cons_of_mem _ hx))
              (fun x hx => hbj x (List.mem_cons_of_mem _ hx)) hf.2]

/-- Claim C1: for every Pattern that satisfies invariants 1-4, i.e.
`IsValid(check_code = false)` returns true, the index-to-address map is
injective: no two distinct in-bounds index tuples map to the same memory
address, the address being the sum over the used axes of
`index[r] * strides[r]`. -/
theorem claim1_no_aliasing_injective {m : ℕ} (p : TensorPattern m)
    (hv : IsValidNoCode p = true) (ix jx : List ℤ)
    (hix : InBounds p ix) (hjx : InBounds p jx)
    (heq : address p ix = address p jx) : ix = jx := by
  have hn : nUsed p ≤ m := valid_nUsed_le p hv
  set t0 := ((usedPairs p).zip ix).filter (fun u => decide (u.1.1 ≠ 1)) with ht0
  set u0 := ((usedPairs p).zip jx).filter (fun u => decide (u.1.1 ≠ 1)) with hu0
  have hmt0 : t0.map Prod.fst = nontrivPairs p := by
    rw [ht0, map_fst_filter_dim _ (fun q => decide (q.1 ≠ 1)),
      map_fst_zip_used p ix hn hix.1, nontrivPairs]
  have hmu0 : u0.map Prod.fst = nontrivPairs p := by
    rw [hu0, map_fst_filter_dim _ (fun q => decide (q.1 ≠ 1)),
      map_fst_zip_used p jx hn hjx.1, nontrivPairs]
  have hperm_t : t0.Perm (sortDescT t0) := (List.perm_insertionSort absDescT t0).symm
  have hperm_u : u0.Perm (sortDescT u0) := (List.perm_insertionSort absDescT u0).symm
  have hmt1 : (sortDescT t0).map Prod.fst = sortDesc (nontrivPairs p) := by
    rw [map_fst_sortDescT, hmt0]
  have hmu1 : (sortDescT u0).map Prod.fst = sortDesc (nontrivPairs p) := by
    rw [map_fst_sortDescT, hmu0]
  have hchain : Chain' noAliasRel ((sortDescT t0).map Prod.fst) := by
    rw [hmt1]
    exact valid_chain p hv
  have hnz : ∀ x ∈ (sortDescT t0).map Prod.fst, x.2 ≠ 0 := by
    rw [hmt1]
    exact fun x hx => (valid_sorted_mem p hv x hx).2
  have hbt1 : BndMem (sortDescT t0) :=
    bndMem_perm hperm_t (bndMem_filter _ (inBounds_zip_bndMem p ix hn hix))
  have hbu1 : BndMem (sortDescT u0) :=
    bndMem_perm hperm_u (bndMem_filter _ (inBounds_zip_bndMem p jx hn hjx))
  have hdot : dotProd (sortDescT t0) = dotProd (sortDescT u0) := by
    rw [← dotProd_perm hperm_t, ← dotProd_perm hperm_u, ht0, hu0,
      ← address_eq_dotProd_filter p ix hn hix, ← address_eq_dotProd_filter p jx hn hjx]
    exact heq
  have hsorteq : sortDescT t0 = sortDescT u0 :=
    inj_chain _ _ (by rw [hmt1, hmu1]) hchain hnz hbt1 hbu1 hdot
  have hperm : t0.Perm u0 := by
    refine hperm_t.trans ?_
    rw [hsorteq]
    exact hperm_u.symm
  have hnodup : (t0.map Prod.fst).Nodup := by
    rw [hmt0]
    have hpw := chain_pairwise_lt _ (valid_chain p hv) (valid_sorted_mem p hv)
    exact (List.perm_insertionSort absDesc (nontrivPairs p)).nodup_iff.mp
      (pairwise_lt_nodup _ hpw)
  have ht0u0 : t0 = u0 := perm_eq_of_fst_eq t0 u0 (by rw [hmt0, hmu0]) hnodup hperm
  refine unfilter_eq (usedPairs p) ix jx ?_ ?_
    (inBounds_zip_bndMem p ix hn hix) (inBounds_zip_bndMem p jx hn hjx) ht0u0
  · rw [usedPairs_length p hn, hix.1]
  · rw [usedPairs_length p hn, hjx.1]

/-- Witness for C1 at the concrete row-major Pattern of scenario A and the
index tuple `[3, 2, 1]` (raxis order). -/
theorem claim1_no_aliasing_injective_witness :
    IsValidNoCode patternA = true ∧ InBounds patternA [3, 2, 1] ∧
      ([3, 2, 1] : List ℤ) = [3, 2, 1] :=
  ⟨by decide, by decide,
    claim1_no_aliasing_injective patternA (by decide) [3, 2, 1] [3, 2, 1]
      (by decide) (by decide) (by decide)⟩

/-- Claim C2: `IsValid(check_code = false)` returns true exactly when
invariants 1-4 all hold; in particular it returns false whenever invariant 2
or 3 fails, and false for a Pattern satisfying invariants 1-3 but failing the
sorted-chain inequality. -/
theorem claim2_isvalid_iff_invariants {m : ℕ} (p : TensorPattern m) :
    (IsValidNoCode p = true ↔
      Invariant1 p ∧ Invariant2 p ∧ Invariant3 p ∧ Invariant4 p) ∧
    (¬ Invariant2 p → IsValidNoCode p = false) ∧
    (¬ Invariant3 p → IsValidNoCode p = false) ∧
    (Invariant1 p → Invariant2 p → Invariant3 p → ¬ Invariant4 p →
      IsValidNoCode p = false) := by
  refine ⟨isValidNoCode_iff p, ?_, ?_, ?_⟩
  · intro h
    rw [Bool.eq_false_iff]
    intro hv
    exact h ((isValidNoCode_iff p).mp hv).2.1
  · intro h
    rw [Bool.eq_false_iff]
    intro hv
    exact h ((isValidNoCode_iff p).mp hv).2.2.1
  · intro _ _ _ h
    rw [Bool.eq_false_iff]
    intro hv
    exact h ((isValidNoCode_iff p).mp hv).2.2.2

/-- Witness for C2: a Pattern violating invariant 2, one violating
invariant 3, and the overlap Pattern of scenario C which satisfies
invariants 1-3 but fails the chain inequality; `IsValid(false)` rejects all
three. -/
theorem claim2_isvalid_iff_invariants_witness :
    (¬ Invariant2 patternBadSlot ∧ IsValidNoCode patternBadSlot = false) ∧
    (¬ Invariant3 patternBadUnused ∧ IsValidNoCode patternBadUnused = false) ∧
    (Invariant1 patternC ∧ Invariant2 patternC ∧ Invariant3 patternC ∧
      ¬ Invariant4 patternC ∧ IsValidNoCode patternC = false) :=
  ⟨⟨by decide, (claim2_isvalid_iff_invariants patternBadSlot).2.1 (by decide)⟩,
    ⟨by decide, (claim2_isvalid_iff_invariants patternBadUnused).2.2.1 (by decide)⟩,
    ⟨by decide, by decide, by decide,
      fun h => absurd ((uniquenessHolds_iff patternC).mpr h) (by decide),
      (claim2_isvalid_iff_invariants patternC).2.2.2
        (by decide) (by decide) (by decide)
        (fun h => absurd ((uniquenessHolds_iff patternC).mpr h) (by decide))⟩⟩

/-- Claim C6: `IsValid(check_code = true)` returns true exactly when
`IsValid(check_code = false)` would return true and the fingerprint
recomputed from the current dims and strides equals the stored `code`; a
Pattern whose dims or strides were mutated without refreshing `code` is
reported invalid under `check_code = true`. -/
theorem claim6_check_code_staleness {m : ℕ} (cc : List ℤ → List ℤ → ℤ)
    (p : TensorPattern m) :
    (IsValid cc p true = true ↔
      IsValid cc p false = true ∧ cc p.dims p.strides = p.code) ∧
    (cc p.dims p.strides ≠ p.code → IsValid cc p true = false) := by
  constructor
  · simp [IsValid]
  · intro h
    simp [IsValid, h]

/-- Witness for C6: with the fingerprint function constantly 0, the Pattern
whose stored `code` is 7 is structurally valid but reported invalid under
`check_code = true`. -/
theorem claim6_check_code_staleness_witness :
    (fun (_ _ : List ℤ) => (0 : ℤ)) patternStale.dims patternStale.strides ≠
      patternStale.code ∧
    IsValid (fun _ _ => (0 : ℤ)) patternStale true = false :=
  ⟨by decide,
    (claim6_check_code_staleness (fun _ _ => (0 : ℤ)) patternStale).2 (by decide)⟩

/-- Claim C8: the Pattern of scenario C (`axis_count = 2`, logical sizes
`[4,4]`, strides `[1,2]`, unused slots at `(1, 0)`) fails
`IsValid(check_code = false)`: invariants 1-3 hold, the axes sorted by
descending absolute stride are `(4,2)` then `(4,1)`, and the adjacent-pair
check `2 >= 4 * 1` fails. -/
theorem claim8_overlap_pattern_invalid :
    IsValidNoCode patternC = false ∧
    Invariant1 patternC ∧ Invariant2 patternC ∧ Invariant3 patternC ∧
    sortDesc (nontrivPairs patternC) = [(4, 2), (4, 1)] ∧
    ¬ noAliasRel (4, 2) (4, 1) := by
  refine ⟨by decide, by decide, by decide, by decide, by decide, by decide⟩

/-- Claim C10: `IsValid()` with the declared default argument is
`IsValid(true)` for every Pattern, so by default the check includes the
fingerprint comparison in addition to the structural and uniqueness
invariants. -/
theorem claim10_default_includes_code_check {m : ℕ} (cc : List ℤ → List ℤ → ℤ)
    (p : TensorPattern m) :
    IsValidDefaultArg cc p = IsValid cc p true ∧
    (IsValidDefaultArg cc p = true ↔
      IsValid cc p false = true ∧ cc p.dims p.strides = p.code) := by
  constructor
  · rfl
  · simp [IsValidDefaultArg, IsValid]

lemma take_dims_eq_range_map {m : ℕ} (p : TensorPattern m) (hn : nUsed p ≤ m) :
    p.dims.take (nUsed p) =
      (List.range (nUsed p)).map (fun r => p.dims.getD r 0) := by
  apply List.ext_getElem
  · simp [List.length_take, p.dims_length]
    omega
  · intro i h1 h2
    have hi : i < nUsed p := by
      simp [List.length_take, p.dims_length] at h1
      omega
    have hd : i < p.dims.length := by rw [p.dims_length]; omega
    simp [List.getElem_take, List.getElem_map, List.getElem_range,
      List.getD_eq_getElem?_getD, List.getElem?_eq_getElem, hd]

lemma valid_take_dims_pos {m : ℕ} (p : TensorPattern m)
    (hv : IsValidNoCode p = true) : ∀ a ∈ p.dims.take (nUsed p), 0 < a := by
  intro a ha
  have hn : nUsed p ≤ m := valid_nUsed_le p hv
  rw [List.mem_iff_getElem] at ha
  obtain ⟨i, hi, rfl⟩ := ha
  have hlen : i < nUsed p := by
    simp [List.length_take, p.dims_length] at hi
    omega
  have hd : i < p.dims.length := by rw [p.dims_length]; omega
  have hq : i < (usedPairs p).length := by rw [usedPairs_length p hn]; exact hlen
  have hmem := valid_used_mem p hv _ (List.getElem_mem hq)
  rw [getElem_usedPairs p i hq] at hmem
  rw [List.getD_eq_getElem p.dims 0 hd] at hmem
  simp only [List.getElem_take]
  exact hmem.1

lemma scalar_valid (m : ℕ) : IsValidNoCode (scalarPattern m) = true := by
  have h0 : nUsed (scalarPattern m) = 0 := rfl
  rw [IsValidNoCode]
  have h1 : usedPairs (scalarPattern m) = [] := by
    simp [usedPairs, h0]
  have h2 : nontrivPairs (scalarPattern m) = [] := by
    simp [nontrivPairs, h1]
  have h3 : uniquenessHolds (scalarPattern m) = true := by
    rw [uniquenessHolds, h2]
    rfl
  have h4 : (unusedPairs (scalarPattern m)).all
      (fun q => decide (q.1 = 1) && decide (q.2 = 0)) = true := by
    rw [List.all_eq_true]
    intro q hq
    rw [unusedPairs, h0] at hq
    simp only [List.drop_zero] at hq
    have := List.of_mem_zip hq
    have hq1 : q.1 = 1 := List.eq_of_mem_replicate (by simpa [scalarPattern] using this.1)
    have hq2 : q.2 = 0 := List.eq_of_mem_replicate (by simpa [scalarPattern] using this.2)
    simp [hq1, hq2]
  rw [h1, h3, h4]
  simp [scalarPattern]

/-- Claim C3: for every valid Pattern the derived `num_elements` equals the
product of the dims over the `num_axes` used slots and is strictly positive;
and for `axis_count = 0` with all slots at the default `(1, 0)` the Pattern is
valid with `num_elements = 1`. -/
theorem claim3_element_count :
    (∀ (m : ℕ) (cc : List ℤ → List ℤ → ℤ) (old : TensorPatternProperties)
       (p : TensorPattern m), IsValidNoCode p = true →
      (UpdateProperties cc old p).num_elements =
        ((List.range (nUsed p)).map (fun r => p.dims.getD r 0)).prod ∧
      0 < (UpdateProperties cc old p).num_elements) ∧
    (∀ (m : ℕ) (cc : List ℤ → List ℤ → ℤ) (old : TensorPatternProperties),
      IsValidNoCode (scalarPattern m) = true ∧
      (UpdateProperties cc old (scalarPattern m)).num_elements = 1) := by
  constructor
  · intro m cc old p hv
    have hn : nUsed p ≤ m := valid_nUsed_le p hv
    constructor
    · show numElementsOf p = _
      rw [numElementsOf, take_dims_eq_range_map p hn]
    · show 0 < numElementsOf p
      rw [numElementsOf]
      exact List.prod_pos (valid_take_dims_pos p hv)
  · intro m cc old
    refine ⟨scalar_valid m, ?_⟩
    show numElementsOf (scalarPattern m) = 1
    rw [numElementsOf]
    rfl

/-- Witness for C3 at the row-major Pattern of scenario A:
`num_elements = 4 * 3 * 2 = 24 > 0`. -/
theorem claim3_element_count_witness :
    IsValidNoCode patternA = true ∧
    ((UpdateProperties (fun _ _ => (0 : ℤ)) ⟨0, 0, false, false⟩ patternA).num_elements =
        ((List.range (nUsed patternA)).map (fun r => patternA.dims.getD r 0)).prod ∧
      0 < (UpdateProperties (fun _ _ => (0 : ℤ)) ⟨0, 0, false, false⟩ patternA).num_elements) :=
  ⟨by decide,
    claim3_element_count.1 5 (fun _ _ => (0 : ℤ)) ⟨0, 0, false, false⟩ patternA (by decide)⟩

/-- Claim C9: `UpdateProperties` is a pure function of the Pattern's dims,
strides and `num_axes` — it ignores the previous Properties state and the
Pattern's cached `code` — and deriving twice from an unmodified Pattern
yields identical Properties. -/
theorem claim9_update_deterministic :
    (∀ (m : ℕ) (cc : List ℤ → List ℤ → ℤ)
       (old1 old2 : TensorPatternProperties) (p q : TensorPattern m),
      p.num_axes = q.num_axes → p.dims = q.dims → p.strides = q.strides →
      UpdateProperties cc old1 p = UpdateProperties cc old2 q) ∧
    (∀ (m : ℕ) (cc : List ℤ → List ℤ → ℤ) (old : TensorPatternProperties)
       (p : TensorPattern m),
      UpdateProperties cc (UpdateProperties cc old p) p =
        UpdateProperties cc old p) := by
  constructor
  · intro m cc old1 old2 p q h1 h2 h3
    have hused : usedPairs p = usedPairs q := by
      rw [usedPairs, usedPairs, nUsed, nUsed, h1, h2, h3]
    simp only [UpdateProperties, numElementsOf, contiguousHolds, hasCStridesOf,
      nontrivPairs, uniquenessHolds, nUsed, hused, h1, h2, h3]
  · intro m cc old p
    rfl

/-- Witness for C9: the scenario-A Pattern and the same Pattern with a
different stored `code` (7) and different previous Properties yield identical
derived Properties. -/
theorem claim9_update_deterministic_witness :
    patternA.num_axes = patternStale.num_axes ∧
    patternA.dims = patternStale.dims ∧
    patternA.strides = patternStale.strides ∧
    patternA.code ≠ patternStale.code ∧
    UpdateProperties (fun _ _ => (0 : ℤ)) ⟨1, 2, true, false⟩ patternA =
      UpdateProperties (fun _ _ => (0 : ℤ)) ⟨3, 4, false, true⟩ patternStale :=
  ⟨rfl, rfl, rfl, by decide,
    claim9_update_deterministic.1 5 (fun _ _ => (0 : ℤ)) ⟨1, 2, true, false⟩
      ⟨3, 4, false, true⟩ patternA patternStale rfl rfl rfl⟩

/-- Claim C5: for every valid Pattern the derived `is_contiguous` flag is
true exactly when the axes with `dim != 1`, sorted by descending absolute
stride, satisfy the adjacent-pair equality
`abs(stride_i) = dim_{i+1} * abs(stride_{i+1})` (no gaps); and validity's
invariant 4 only requires `>=`, so a valid Pattern can have gaps and be
non-contiguous. -/
theorem claim5_contiguous_iff_no_gaps :
    (∀ (m : ℕ) (cc : List ℤ → List ℤ → ℤ) (old : TensorPatternProperties)
       (p : TensorPattern m), IsValidNoCode p = true →
      ((UpdateProperties cc old p).is_contiguous = true ↔
        ∃ l, (nontrivPairs p).Perm l ∧ l.Sorted absDesc ∧ Chain' noGapRel l)) ∧
    (IsValidNoCode patternGap = true ∧
      (UpdateProperties (fun _ _ => (0 : ℤ)) ⟨0, 0, false, false⟩
        patternGap).is_contiguous = false) := by
  constructor
  · intro m cc old p hv
    show contiguousHolds p = true ↔ _
    rw [contiguousHolds, chainHolds_iff_chain']
    simp only [decide_eq_true_eq]
    constructor
    · intro hc
      exact ⟨sortDesc (nontrivPairs p), (List.perm_insertionSort absDesc _).symm,
        List.sorted_insertionSort absDesc _, hc⟩
    · rintro ⟨l, hperm, hsort, hchain⟩
      have heq : sortDesc (nontrivPairs p) = l :=
        eq_of_perm_sorted_strict _ _ ((List.perm_insertionSort absDesc _).trans hperm)
          (chain_pairwise_lt _ (valid_chain p hv) (valid_sorted_mem p hv)) hsort
      rw [heq]
      exact hchain
  · exact ⟨by decide, by decide⟩

/-- Witness for C5 at the permuted dense Pattern of scenario B, which is
contiguous, hence its sorted chain has no gaps. -/
theorem claim5_contiguous_iff_no_gaps_witness :
    IsValidNoCode patternB = true ∧
    (∃ l, (nontrivPairs patternB).Perm l ∧ l.Sorted absDesc ∧ Chain' noGapRel l) :=
  ⟨by decide,
    (claim5_contiguous_iff_no_gaps.1 5 (fun _ _ => (0 : ℤ)) ⟨0, 0, false, false⟩
      patternB (by decide)).mp (by decide)⟩

/-- Counterexample for C7: in the stored (raxis, reversed-order)
representation the used region is the leading `num_axes` slots, so for the
valid Pattern `patternT` (`num_axes = 2`) the last logical axis (logical
index 1, size 4) is read from slot 0, while the high-end slot
`KALDI_TENSOR_MAX_DIM - 1 = 4` is an unused slot holding dim 1: the size of
the last logical axis is not stored nearest the high end of the arrays. -/
theorem claim7_dim_counterexample :
    IsValidNoCode patternT = true ∧ nUsed patternT = 2 ∧
    dim patternT 1 = 4 ∧ patternT.dims.getD (5 - 1) 0 = 1 ∧
    dim patternT 1 ≠ patternT.dims.getD (5 - 1) 0 := by decide

/-- Claim C7 (amended): for every valid Pattern and logical axis
`i < num_axes`, the accessor `dim(i)` reads slot `num_axes - 1 - i` of the
raxis-indexed `dims` array; that slot lies inside the leading used region,
and the value is the `i`-th entry of the logical-order size list (the
reversal of the used prefix of `dims`). -/
theorem claim7_dim_reversed_indexing {m : ℕ} (p : TensorPattern m) (i : ℕ)
    (hv : IsValidNoCode p = true) (hi : i < nUsed p) :
    dim p i = p.dims.getD (nUsed p - 1 - i) 0 ∧
    nUsed p - 1 - i < nUsed p ∧
    dim p i = ((p.dims.take (nUsed p)).reverse).getD i 0 := by
  have hn : nUsed p ≤ m := valid_nUsed_le p hv
  refine ⟨rfl, by omega, ?_⟩
  have hlen : (p.dims.take (nUsed p)).length = nUsed p := by
    simp [List.length_take, p.dims_length]
    omega
  have hi2 : i < ((p.dims.take (nUsed p)).reverse).length := by
    rw [List.length_reverse, hlen]
    exact hi
  have hidx : nUsed p - 1 - i < p.dims.length := by rw [p.dims_length]; omega
  rw [dim, List.getD_eq_getElem _ 0 hi2, List.getElem_reverse,
    List.getD_eq_getElem p.dims 0 hidx]
  have hit : (p.dims.take (nUsed p)).length - 1 - i < nUsed p := by omega
  rw [List.getElem_take]
  congr 1
  omega

/-- Witness for C7 at `patternT`, logical axis 0 (size 3, stored at raxis
slot 1). -/
theorem claim7_dim_reversed_indexing_witness :
    IsValidNoCode patternT = true ∧ 0 < nUsed patternT ∧
    (dim patternT 0 = patternT.dims.getD (nUsed patternT - 1 - 0) 0 ∧
      nUsed patternT - 1 - 0 < nUsed patternT ∧
      dim patternT 0 = ((patternT.dims.take (nUsed patternT)).reverse).getD 0 0) :=
  ⟨by decide, by decide,
    claim7_dim_reversed_indexing patternT 0 (by decide) (by decide)⟩

lemma cstride_filter : ∀ (l : List (ℤ × ℤ)) (acc : ℤ),
    cStridesCheck acc l = true →
    AscChain acc (l.filter (fun q => decide (q.1 ≠ 1))) := by
  intro l
  induction l with
  | nil => intro acc _; trivial
  | cons q t ih =>
    intro acc h
    rw [cStridesCheck, Bool.and_eq_true] at h
    by_cases hq : q.1 = 1
    · have hrec := ih (acc * q.1) h.2
      rw [hq, mul_one] at hrec
      simpa [List.filter_cons, hq] using hrec
    · rw [if_neg hq, decide_eq_true_eq] at h
      have hrec := ih (acc * q.1) h.2
      rw [List.filter_cons, if_pos (by simp [hq])]
      exact ⟨h.1, hrec⟩

lemma ascChain_facts : ∀ (l : List (ℤ × ℤ)) (acc : ℤ), 0 < acc →
    (∀ x ∈ l, 2 ≤ x.1) → AscChain acc l →
    (∀ x ∈ l, acc ≤ x.2) ∧ Chain' (flip noGapRel) l ∧
      l.Pairwise (fun a b => |a.2| < |b.2|) := by
  intro l
  induction l with
  | nil => intro acc _ _ _; exact ⟨by simp, List.chain'_nil, List.Pairwise.nil⟩
  | cons q t ih =>
    intro acc hacc hdim h
    obtain ⟨hq2, hrest⟩ := h
    have hq1 : 2 ≤ q.1 := hdim q (by simp)
    have hacc2 : 0 < acc * q.1 := mul_pos hacc (by omega)
    obtain ⟨ht1, ht2, ht3⟩ :=
      ih (acc * q.1) hacc2 (fun x hx => hdim x (List.mem_cons_of_mem q hx)) hrest
    have hmono : ∀ x ∈ t, acc < x.2 := by
      intro x hx
      have := ht1 x hx
      nlinarith
    refine ⟨?_, ?_, ?_⟩
    · intro x hx
      rcases List.mem_cons.mp hx with heq | hmem
      · rw [heq, hq2]
      · exact le_of_lt (hmono x hmem)
    · cases t with
      | nil => simp
      | cons r t2 =>
        rw [chain'_cons]
        refine ⟨?_, ht2⟩
        show noGapRel r q
        rw [noGapRel]
        have hr2 : r.2 = acc * q.1 := hrest.1
        rw [hq2, hr2, abs_of_pos hacc2, abs_of_pos hacc]
        ring
    · refine List.Pairwise.cons ?_ ht3
      intro x hx
      have hxp : acc * q.1 ≤ x.2 := ht1 x hx
      rw [hq2, abs_of_pos hacc, abs_of_pos (by nlinarith : (0 : ℤ) < x.2)]
      nlinarith

/-- Claim C4: for every valid Pattern, `has_c_strides = true` implies
`is_contiguous = true`; the converse fails: the valid permuted-dense Pattern
of scenario B (`axis_count = 2`, logical sizes `[3,4]`, strides `[1,3]`) has
`is_contiguous = true` but `has_c_strides = false`. -/
theorem claim4_c_strides_implies_contiguous :
    (∀ (m : ℕ) (cc : List ℤ → List ℤ → ℤ) (old : TensorPatternProperties)
       (p : TensorPattern m), IsValidNoCode p = true →
      (UpdateProperties cc old p).has_c_strides = true →
      (UpdateProperties cc old p).is_contiguous = true) ∧
    (IsValidNoCode patternB = true ∧
      (UpdateProperties (fun _ _ => (0 : ℤ)) ⟨0, 0, false, false⟩
        patternB).is_contiguous = true ∧
      (UpdateProperties (fun _ _ => (0 : ℤ)) ⟨0, 0, false, false⟩
        patternB).has_c_strides = false) := by
  constructor
  · intro m cc old p hv hc
    replace hc : cStridesCheck 1 (usedPairs p) = true := hc
    show contiguousHolds p = true
    have hasc : AscChain 1 (nontrivPairs p) := by
      rw [nontrivPairs]
      exact cstride_filter (usedPairs p) 1 hc
    obtain ⟨_, hchain, hpw⟩ := ascChain_facts (nontrivPairs p) 1 one_pos
      (fun x hx => (valid_nontriv_mem p hv x hx).1) hasc
    have hrevchain : Chain' noGapRel (nontrivPairs p).reverse :=
      chain'_reverse.mpr hchain
    have hrevpw : (nontrivPairs p).reverse.Pairwise (fun a b => |b.2| < |a.2|) :=
      List.pairwise_reverse.mpr hpw
    have hperm : ((nontrivPairs p).reverse).Perm (sortDesc (nontrivPairs p)) :=
      ((nontrivPairs p).reverse_perm).trans (List.perm_insertionSort absDesc _).symm
    have heq : (nontrivPairs p).reverse = sortDesc (nontrivPairs p) :=
      eq_of_perm_sorted_strict _ _ hperm hrevpw (List.sorted_insertionSort absDesc _)
    rw [contiguousHolds, chainHolds_iff_chain', ← heq]
    simp only [decide_eq_true_eq]
    exact hrevchain
  · exact ⟨by decide, by decide, by decide⟩

/-- Witness for C4 at the row-major Pattern of scenario A, which has C
strides and is therefore contiguous. -/
theorem claim4_c_strides_implies_contiguous_witness :
    IsValidNoCode patternA = true ∧
    (UpdateProperties (fun _ _ => (0 : ℤ)) ⟨0, 0, false, false⟩
      patternA).has_c_strides = true ∧
    (UpdateProperties (fun _ _ => (0 : ℤ)) ⟨0, 0, false, false⟩
      patternA).is_contiguous = true :=
  ⟨by decide, by decide,
    claim4_c_strides_implies_contiguous.1 5 (fun _ _ => (0 : ℤ))
      ⟨0, 0, false, false⟩ patternA (by decide) (by decide)⟩

end KaldiTensor
